import Mathlib

/-!
# Kafka MCP server: bounded consumption, topic listing and tool handlers

A shallow embedding of `kafka_client.go` and `main.go`.

* Go strings and byte slices are Lean `String`s.
* Go `int` / `int64` values are `Int` (no value in these routines approaches the
  64-bit range, except through the float conversion noted at `toInt`).
* The broker transport (kafka-go) is an explicit environment: every call the
  code makes on a connection, reader or writer is answered by a field of `Env`
  or by a `Reader`.
* Each routine returns, next to the values the Go function returns, the ghost
  data needed to talk about its effects (number of reads, calls made).
-/

namespace KafkaMcp

/-! ## Formatting primitives (Go `fmt` and `time`) -/

/-- The verb `%d` of `fmt.Sprintf` at a Go integer. -/
def fmtInt (x : Int) : String :=
  if x < 0 then "-" ++ Nat.repr x.natAbs else Nat.repr x.natAbs

/-- Go `time.appendInt`: the decimal digits of `x`, a leading minus sign when
negative, zero-padded on the left to at least `width` digits. -/
def appendInt (x : Int) (width : Nat) : String :=
  let ds := Nat.repr x.natAbs
  (if x < 0 then "-" else "") ++ String.mk (List.replicate (width - ds.length) '0') ++ ds

/-- The civil-time reading of a Go `time.Time` in its own location, which is
all that `Format` with a layout of numeric fields looks at. -/
structure Time where
  year : Int
  month : Nat
  day : Nat
  hour : Nat
  minute : Nat
  second : Nat
  deriving DecidableEq, Repr

/-- Go `t.Format("2006-01-02 15:04:05")`: four-digit year, two-digit month,
day, hour, minute and second, each through `appendInt`. -/
def Time.Format (t : Time) : String :=
  appendInt t.year 4 ++ "-" ++ appendInt t.month 2 ++ "-" ++ appendInt t.day 2 ++ " " ++
    appendInt t.hour 2 ++ ":" ++ appendInt t.minute 2 ++ ":" ++ appendInt t.second 2

/-! ## Data model -/

/-- The fields of `kafka.Message` that `consumeKafkaMessages` reads. `Key` and
`Value` are byte slices, kept as the strings `string(msg.Key)` and
`string(msg.Value)`; a nil or empty key is `""`. -/
structure Message where
  Key : String
  Value : String
  Time : Time
  Partition : Int
  Offset : Int
  deriving DecidableEq, Repr

/-- The error value of a failed `reader.ReadMessage(ctx)`, as far as the code
tells errors apart: the two context errors it compares against by identity,
and any other error with its `%v` text. -/
inductive ReadError where
  | DeadlineExceeded
  | Canceled
  | Other (text : String)
  deriving DecidableEq, Repr

/-- The outcome of one `reader.ReadMessage(ctx)` call. -/
inductive ReadOutcome where
  | ok (msg : Message)
  | fail (err : ReadError)
  deriving DecidableEq, Repr

/-- A reader opened on one topic: `reader n` is the outcome of the `n`-th call
(counted from 0) of `ReadMessage` on it. -/
abbrev Reader := Nat → ReadOutcome

/-- The text `%v` prints for a read error. -/
def ReadError.text : ReadError → String
  | .DeadlineExceeded => "context deadline exceeded"
  | .Canceled => "context canceled"
  | .Other t => t

/-! ## `consumeKafkaMessages` -/

/-- The text returned when nothing was read. -/
def emptyText : String := "Topic is empty or no new messages"

/-- Lines 133-140: the text built for one message that was read. -/
def messageStr (msg : Message) : String :=
  let keyStr := if msg.Key.length > 0 then "Key: " ++ msg.Key ++ ", " else ""
  let timestamp := msg.Time.Format
  "[" ++ timestamp ++ "] " ++ keyStr ++ "Value: " ++ msg.Value ++
    " (Partition: " ++ fmtInt msg.Partition ++ ", Offset: " ++ fmtInt msg.Offset ++ ")"

/-- The text `fmt.Sprintf("%d. %s\n", i+1, msg)` of line 151. -/
def numbered (i : Nat) (msg : String) : String :=
  Nat.repr (i + 1) ++ ". " ++ msg ++ "\n"

/-- Lines 149-152: `result` after the loop over `messages` whose first index
is `i`, starting from the text `result`. -/
def appendNumbered : Nat → List String → String → String
  | _, [], result => result
  | i, msg :: rest, result => appendNumbered (i + 1) rest (result ++ numbered i msg)

/-- What `consumeKafkaMessages` returns (`text`, `err`; `err = none` is Go's
nil error), with the ghost data of the run: `reads`, the number of
`ReadMessage` calls made, and `messages`, the slice `messages` at the moment of
return. -/
structure ConsumeResult where
  text : String
  err : Option String
  reads : Nat
  messages : List String
  deriving DecidableEq, Repr

/-- Lines 145-154: the code after the loop. -/
def afterLoop (reads : Nat) (messages : List String) : ConsumeResult :=
  if messages.length = 0 then
    ⟨emptyText, none, reads, messages⟩
  else
    ⟨appendNumbered 0 messages "", none, reads, messages⟩

/-- Lines 121-143: the loop `for i := 0; i < count; i++`, entered with
`remaining = count - i` iterations still allowed (so `i < count` holds exactly
when `remaining` is a successor), `reads` calls of `ReadMessage` made so far
and the slice `messages`. A `return` inside the loop returns at once; `break`
and the end of the loop go on to `afterLoop`. -/
def consumeLoop (reader : Reader) : Nat → Nat → Nat → List String → ConsumeResult
  | 0, _, reads, messages => afterLoop reads messages
  | remaining + 1, i, reads, messages =>
    match reader reads with
    | .fail err =>
      if err = .DeadlineExceeded ∨ err = .Canceled then
        if i = 0 then
          ⟨emptyText, none, reads + 1, messages⟩
        else
          afterLoop (reads + 1) messages
      else
        ⟨"", some ("cannot read message: " ++ err.text), reads + 1, messages⟩
    | .ok msg =>
      consumeLoop reader remaining (i + 1) (reads + 1) (messages ++ [messageStr msg])

/-- The function `consumeKafkaMessages(broker, topic, count)`. `newReader broker
topic` is the reader that `kafka.NewReader` opens on partition 0 of the topic.
For `count ≤ 0` the loop body never runs (`count.toNat = 0`). -/
def consumeKafkaMessages (newReader : String → String → Reader)
    (broker topic : String) (count : Int) : ConsumeResult :=
  consumeLoop (newReader broker topic) count.toNat 0 0 []

/-! ## The other broker routines of `kafka_client.go` -/

/-- The field of `kafka.Partition` that `listKafkaTopics` reads, and its id. -/
structure Partition where
  Topic : String
  ID : Int
  deriving DecidableEq, Repr

/-- The address fields of the `kafka.Broker` returned by `conn.Controller()`. -/
structure Broker where
  Host : String
  Port : Int
  deriving DecidableEq, Repr

/-- The `kafka.TopicConfig` that `createKafkaTopic` fills in. -/
structure TopicConfig where
  Topic : String
  NumPartitions : Int
  ReplicationFactor : Int
  deriving DecidableEq, Repr

/-- The `kafka.Message` that `produceKafkaMessage` writes; `Key = none` is the
nil key of a message whose key was never set. -/
structure OutMessage where
  Key : Option String
  Value : String
  deriving DecidableEq, Repr

/-- The world outside the program: what every call into kafka-go answers, the
order in which Go ranges over a map, and `strconv.ParseFloat` (finite results
only). An error is given by its `%v` text; `none` is a nil error. -/
structure Env where
  /-- The call `kafka.Dial("tcp", address)`. -/
  dial : String → Option String
  /-- The call `conn.ReadPartitions()` on a connection to the address. -/
  readPartitions : String → Except String (List Partition)
  /-- The call `conn.Controller()` on a connection to the address. -/
  controller : String → Except String Broker
  /-- The call `controllerConn.CreateTopics(config)` on a connection to the address. -/
  createTopics : String → TopicConfig → Option String
  /-- The call `writer.WriteMessages(ctx, msg)` of a writer on the broker and topic. -/
  writeMessages : String → String → OutMessage → Option String
  /-- The reader `kafka.NewReader` opens on partition 0 of the broker's topic. -/
  newReader : String → String → Reader
  /-- The order in which `range` visits the keys of a map holding these keys. -/
  mapOrder : List String → List String
  /-- Ranging over a map visits every key exactly once. -/
  mapOrder_perm : ∀ ks, (mapOrder ks).Perm ks
  /-- The function `strconv.ParseFloat(s, 64)`; `none` is a parse error. -/
  parseFloat : String → Option ℚ

/-- The statement `topicMap[key] = true` on a Go map kept as the list of its
keys, each once, in the order they were first set (every value is `true`). -/
def mapSet (topicMap : List String) (key : String) : List String :=
  if key ∈ topicMap then topicMap else topicMap ++ [key]

/-- The function `listKafkaTopics(broker)`: `.error` carries the text of the
returned error, `.ok` the returned slice. -/
def listKafkaTopics (env : Env) (broker : String) : Except String (List String) :=
  match env.dial broker with
  | some err => .error ("cannot connect to broker " ++ broker ++ ": " ++ err)
  | none =>
    match env.readPartitions broker with
    | .error err => .error ("cannot read partitions: " ++ err)
    | .ok partitions =>
      let topicMap := partitions.foldl (fun m partition => mapSet m partition.Topic) []
      let topics := (env.mapOrder topicMap).foldl (fun topics topic => topics ++ [topic]) []
      .ok topics

/-- The function `createKafkaTopic(broker, topic, partitions)`; the result is
the returned error, `none` for nil. -/
def createKafkaTopic (env : Env) (broker topic : String) (partitions : Int) : Option String :=
  match env.dial broker with
  | some err => some ("cannot connect to broker " ++ broker ++ ": " ++ err)
  | none =>
    match env.controller broker with
    | .error err => some ("cannot get controller information: " ++ err)
    | .ok controller =>
      let address := controller.Host ++ ":" ++ fmtInt controller.Port
      match env.dial address with
      | some err => some ("cannot connect to controller: " ++ err)
      | none =>
        match env.createTopics address ⟨topic, partitions, 1⟩ with
        | some err => some ("cannot create topic: " ++ err)
        | none => none

/-- The function `produceKafkaMessage(broker, topic, key, message)`; the result
is the returned error, `none` for nil. -/
def produceKafkaMessage (env : Env) (broker topic key message : String) : Option String :=
  let msg : OutMessage := ⟨if key ≠ "" then some key else none, message⟩
  match env.writeMessages broker topic msg with
  | some err => some ("không thể gửi message: " ++ err)
  | none => none

/-! ## Tool requests and results (`mcp-go`) -/

/-- A JSON argument value as the accessors of `mcp.CallToolRequest` tell them
apart: a string, a number (`float64`, finite), or anything else. -/
inductive ArgValue where
  | str (s : String)
  | num (x : ℚ)
  | other
  deriving DecidableEq

/-- The arguments of a `mcp.CallToolRequest`: `args key = none` when the
request has no argument of that name. -/
structure Request where
  args : String → Option ArgValue

/-- The accessor `request.RequireString(key)`: `none` is a non-nil error,
returned when the argument is absent or is not a string. -/
def Request.RequireString (request : Request) (key : String) : Option String :=
  match request.args key with
  | some (.str s) => some s
  | _ => none

/-- The accessor `request.GetString(key, defaultValue)`. -/
def Request.GetString (request : Request) (key defaultValue : String) : String :=
  match request.args key with
  | some (.str s) => s
  | _ => defaultValue

/-- The accessor `request.GetFloat(key, defaultValue)`: a number is returned as
it is, a string that parses as a float is returned parsed, and anything else,
or no argument, gives the default. -/
def Request.GetFloat (request : Request) (parseFloat : String → Option ℚ)
    (key : String) (defaultValue : ℚ) : ℚ :=
  match request.args key with
  | some (.num x) => x
  | some (.str s) =>
    match parseFloat s with
    | some x => x
    | none => defaultValue
  | _ => defaultValue

/-- The Go conversion `int(c)` of a `float64`: the fraction is dropped
(rounding toward zero). Exact for every value inside the range of `int`. -/
def toInt (c : ℚ) : Int := Int.tdiv c.num c.den

/-- The part of `mcp.CallToolResult` the handlers set: one text content and
the `IsError` flag. -/
structure CallToolResult where
  text : String
  isError : Bool
  deriving DecidableEq, Repr

/-- The constructor `mcp.NewToolResultText`. -/
def NewToolResultText (text : String) : CallToolResult := ⟨text, false⟩

/-- The constructor `mcp.NewToolResultError`. -/
def NewToolResultError (text : String) : CallToolResult := ⟨text, true⟩

/-- A call of one of the four broker routines, with its arguments. -/
inductive BrokerCall where
  | listKafkaTopics (broker : String)
  | createKafkaTopic (broker topic : String) (partitions : Int)
  | produceKafkaMessage (broker topic key message : String)
  | consumeKafkaMessages (broker topic : String) (count : Int)
  deriving DecidableEq, Repr

/-- What a tool handler returns: the result, the error (`none` is nil; a
non-nil error is a failure at the protocol layer), and the ghost list of the
broker routines it called. -/
structure HandlerResult where
  result : CallToolResult
  err : Option String
  calls : List BrokerCall
  deriving DecidableEq, Repr

/-! ## The four tool handlers of `main.go` -/

/-- The handler registered for `list_topics` (lines 28-49). -/
def listTopicsHandler (env : Env) (request : Request) : HandlerResult :=
  match request.RequireString "broker" with
  | none => ⟨NewToolResultError "Missing broker information", none, []⟩
  | some broker =>
    match listKafkaTopics env broker with
    | .error err =>
      ⟨NewToolResultError ("Error listing topics: " ++ err), none, [.listKafkaTopics broker]⟩
    | .ok topics =>
      if topics.length = 0 then
        ⟨NewToolResultText "No topics found in broker", none, [.listKafkaTopics broker]⟩
      else
        ⟨NewToolResultText (appendNumbered 0 topics "List of topics:\n"), none,
          [.listKafkaTopics broker]⟩

/-- The handler registered for `create_topic` (lines 66-88). -/
def createTopicHandler (env : Env) (request : Request) : HandlerResult :=
  match request.RequireString "broker" with
  | none => ⟨NewToolResultError "Missing broker information", none, []⟩
  | some broker =>
    match request.RequireString "topic" with
    | none => ⟨NewToolResultError "Missing topic name", none, []⟩
    | some topicName =>
      let p := request.GetFloat env.parseFloat "partitions" 1
      let partitions : Int := if p > 0 then toInt p else 1
      match createKafkaTopic env broker topicName partitions with
      | some err =>
        ⟨NewToolResultError ("Error creating topic: " ++ err), none,
          [.createKafkaTopic broker topicName partitions]⟩
      | none =>
        ⟨NewToolResultText ("✅ Successfully created topic '" ++ topicName ++ "' with " ++
            fmtInt partitions ++ " partitions"), none,
          [.createKafkaTopic broker topicName partitions]⟩

/-- The handler registered for `produce_message` (lines 110-139). -/
def produceHandler (env : Env) (request : Request) : HandlerResult :=
  match request.RequireString "broker" with
  | none => ⟨NewToolResultError "Missing broker information", none, []⟩
  | some broker =>
    match request.RequireString "topic" with
    | none => ⟨NewToolResultError "Missing topic name", none, []⟩
    | some topic =>
      match request.RequireString "message" with
      | none => ⟨NewToolResultError "Missing message content", none, []⟩
      | some message =>
        let key := request.GetString "key" ""
        match produceKafkaMessage env broker topic key message with
        | some err =>
          ⟨NewToolResultError ("Error sending message: " ++ err), none,
            [.produceKafkaMessage broker topic key message]⟩
        | none =>
          let keyInfo := if key ≠ "" then " with key '" ++ key ++ "'" else ""
          ⟨NewToolResultText ("✅ Successfully sent message to topic '" ++ topic ++ "'" ++ keyInfo),
            none, [.produceKafkaMessage broker topic key message]⟩

/-- Lines 168-171 of the `consume_messages` handler: the `count` it passes on. -/
def consumeCount (env : Env) (request : Request) : Int :=
  let c := request.GetFloat env.parseFloat "count" 10
  if c > 0 then toInt c else 10

/-- The handler registered for `consume_messages` (lines 157-183). -/
def consumeHandler (env : Env) (request : Request) : HandlerResult :=
  match request.RequireString "broker" with
  | none => ⟨NewToolResultError "Missing broker information", none, []⟩
  | some broker =>
    match request.RequireString "topic" with
    | none => ⟨NewToolResultError "Missing topic name", none, []⟩
    | some topic =>
      let count := consumeCount env request
      let r := consumeKafkaMessages env.newReader broker topic count
      match r.err with
      | some err =>
        ⟨NewToolResultError ("Error reading messages: " ++ err), none,
          [.consumeKafkaMessages broker topic count]⟩
      | none =>
        if r.text = "" then
          ⟨NewToolResultText ("No messages found in topic '" ++ topic ++ "'"), none,
            [.consumeKafkaMessages broker topic count]⟩
        else
          ⟨NewToolResultText ("📨 Messages in topic '" ++ topic ++ "':\n\n" ++ r.text), none,
            [.consumeKafkaMessages broker topic count]⟩

/-! ## Lines of a text -/

/-- The lines of a text: the runs of characters between newline characters,
each newline ending one line; characters after the last newline, if any, form
a last line. -/
def textLines : List Char → List (List Char)
  | [] => []
  | c :: cs =>
    if c = '\n' then [] :: textLines cs
    else
      match textLines cs with
      | [] => [[c]]
      | l :: ls => (c :: l) :: ls

/-! ## The rendering as the specification words it -/

/-- The line of the message at index `i` (counted from 0), as specified: the
1-based number, the timestamp in brackets, `Key: <key>, ` exactly when the key
is not empty, then the value, the partition and the offset. -/
def specLine (i : Nat) (m : Message) : String :=
  Nat.repr (i + 1) ++ ". [" ++ m.Time.Format ++ "] " ++
    (if m.Key = "" then "" else "Key: " ++ m.Key ++ ", ") ++
    "Value: " ++ m.Value ++
    " (Partition: " ++ fmtInt m.Partition ++ ", Offset: " ++ fmtInt m.Offset ++ ")"

/-! ## Sample inputs -/

/-- The reader whose calls give the listed outcomes, in order, and `rest` ever
after. -/
def readerOf (outcomes : List ReadOutcome) (rest : ReadOutcome) : Reader :=
  fun n => outcomes.getD n rest

/-- The time 2 January 2024, 03:04:05. -/
def sampleTime : Time := ⟨2024, 1, 2, 3, 4, 5⟩

/-- A message with a key. -/
def msgA : Message := ⟨"k1", "hello", sampleTime, 0, 0⟩

/-- A message without a key. -/
def msgB : Message := ⟨"", "world", sampleTime, 0, 1⟩

/-- A message whose value holds a newline. -/
def msgTwoLines : Message := ⟨"", "a\nb", sampleTime, 0, 0⟩

/-- A broker that accepts every connection and every request, lists the given
partitions, hands out the given reader for every topic, ranges over maps in
insertion order and parses no string as a number. -/
def sampleEnv (reader : Reader) (partitions : List Partition) : Env where
  dial := fun _ => none
  readPartitions := fun _ => .ok partitions
  controller := fun _ => .ok ⟨"localhost", 9092⟩
  createTopics := fun _ _ => none
  writeMessages := fun _ _ _ => none
  newReader := fun _ _ => reader
  mapOrder := id
  mapOrder_perm := fun _ => List.Perm.refl _
  parseFloat := fun _ => none

/-- The request with the listed arguments. -/
def requestOf (args : List (String × ArgValue)) : Request :=
  ⟨fun key => args.lookup key⟩

/-! ## Facts about the formatting primitives -/

theorem join_cons (a : String) (l : List String) :
    String.join (a :: l) = a ++ String.join l := by
  apply String.ext
  simp [String.data_join]

theorem join_nil : String.join [] = "" := rfl

theorem append_empty (a : String) : a ++ "" = a := by
  apply String.ext
  simp

theorem empty_append (a : String) : "" ++ a = a := by
  apply String.ext
  simp

/-- The loop of lines 149-152 appends, for the message at index `i`, the text
`i+1`, a dot and a blank, the message, and a newline. -/
theorem appendNumbered_eq {α : Type} (f : α → String) (ms : List α) :
    ∀ (i : Nat) (result : String),
      appendNumbered i (ms.map f) result =
        result ++ String.join ((ms.enumFrom i).map
          (fun p => Nat.repr (p.1 + 1) ++ ". " ++ f p.2 ++ "\n")) := by
  induction ms with
  | nil => intro i result; simp [appendNumbered, join_nil, append_empty]
  | cons m rest ih =>
    intro i result
    simp only [List.map_cons, appendNumbered, List.enumFrom_cons, join_cons, ih, numbered]
    simp only [String.append_assoc]

/-! ## The loop of `consumeKafkaMessages` -/

theorem afterLoop_err (reads : Nat) (messages : List String) :
    (afterLoop reads messages).err = none := by
  unfold afterLoop; split <;> rfl

theorem afterLoop_reads (reads : Nat) (messages : List String) :
    (afterLoop reads messages).reads = reads := by
  unfold afterLoop; split <;> rfl

theorem afterLoop_messages (reads : Nat) (messages : List String) :
    (afterLoop reads messages).messages = messages := by
  unfold afterLoop; split <;> rfl

theorem afterLoop_text_nil (reads : Nat) : (afterLoop reads []).text = emptyText := rfl

theorem afterLoop_text_map {α : Type} (f : α → String) (ms : List α) (reads : Nat)
    (h : ms ≠ []) :
    (afterLoop reads (ms.map f)).text =
      String.join (ms.enum.map (fun p => Nat.repr (p.1 + 1) ++ ". " ++ f p.2 ++ "\n")) := by
  unfold afterLoop
  have hlen : ¬ (ms.map f).length = 0 := by
    simpa [List.length_eq_zero] using h
  rw [if_neg hlen]
  simp only [appendNumbered_eq, empty_append, List.enum]

/-- A run of successful reads: the loop goes through them one by one. -/
theorem consumeLoop_ok_run (reader : Reader) (ms : List Message) :
    ∀ (n i reads : Nat) (messages : List String),
      (∀ j (h : j < ms.length), reader (reads + j) = .ok (ms.get ⟨j, h⟩)) →
      consumeLoop reader (ms.length + n) i reads messages =
        consumeLoop reader n (i + ms.length) (reads + ms.length)
          (messages ++ ms.map messageStr) := by
  induction ms with
  | nil => intro n i reads messages _; simp
  | cons m rest ih =>
    intro n i reads messages h
    have h0 : reader reads = .ok m := by simpa using h 0 (by simp)
    have hrest : ∀ j (hj : j < rest.length), reader (reads + 1 + j) = .ok (rest.get ⟨j, hj⟩) := by
      intro j hj
      have := h (j + 1) (by simpa using hj)
      simpa [Nat.add_assoc, Nat.add_comm 1 j] using this
    have hlen : (m :: rest).length + n = (rest.length + n) + 1 := by simp; omega
    rw [hlen, consumeLoop, h0]
    simp only
    rw [ih n (i + 1) (reads + 1) (messages ++ [messageStr m]) hrest]
    simp [Nat.add_assoc, Nat.add_comm 1 rest.length]

/-- The loop returns an error exactly when, among the reads it is allowed,
the first one that fails does so with an error other than the two context
errors. -/
theorem consumeLoop_err_iff (reader : Reader) :
    ∀ (n i reads : Nat) (messages : List String),
      (consumeLoop reader n i reads messages).err ≠ none ↔
        ∃ j, j < n ∧ (∀ l, l < j → ∃ m, reader (reads + l) = .ok m) ∧
          ∃ t, reader (reads + j) = .fail (.Other t) := by
  intro n
  induction n with
  | zero =>
    intro i reads messages
    simp [consumeLoop, afterLoop_err]
  | succ n ih =>
    intro i reads messages
    rw [consumeLoop]
    cases hr : reader reads with
    | ok msg =>
      simp only
      rw [ih]
      constructor
      · rintro ⟨j, hj, hok, t, ht⟩
        refine ⟨j + 1, by omega, ?_, t, ?_⟩
        · intro l hl
          cases l with
          | zero => exact ⟨msg, by simpa using hr⟩
          | succ l =>
            obtain ⟨m, hm⟩ := hok l (by omega)
            exact ⟨m, by rw [← hm]; congr 1; omega⟩
        · rw [← ht]; congr 1; omega
      · rintro ⟨j, hj, hok, t, ht⟩
        cases j with
        | zero => simp [hr] at ht
        | succ j =>
          refine ⟨j, by omega, ?_, t, ?_⟩
          · intro l hl
            obtain ⟨m, hm⟩ := hok (l + 1) (by omega)
            exact ⟨m, by rw [← hm]; congr 1; omega⟩
          · rw [← ht]; congr 1; omega
    | fail err =>
      simp only
      have hno : ∀ j, (∀ l, l < j → ∃ m, reader (reads + l) = .ok m) →
          ∀ t, reader (reads + j) = .fail (.Other t) → err = .Other t := by
        intro j hok t ht
        cases j with
        | zero =>
          have : ReadOutcome.fail err = .fail (.Other t) := by rw [← hr, ← ht]; rfl
          exact ReadOutcome.fail.inj this
        | succ j =>
          obtain ⟨m, hm⟩ := hok 0 (by omega)
          simp [hr] at hm
      cases err with
      | DeadlineExceeded =>
        have hlhs : (if i = 0 then (⟨emptyText, none, reads + 1, messages⟩ : ConsumeResult)
            else afterLoop (reads + 1) messages).err = none := by
          split
          · rfl
          · exact afterLoop_err _ _
        simp only [true_or, if_true, hlhs, ne_eq, not_true_eq_false, false_iff]
        rintro ⟨j, _, hok, t, ht⟩
        exact ReadError.noConfusion (hno j hok t ht)
      | Canceled =>
        have hlhs : (if i = 0 then (⟨emptyText, none, reads + 1, messages⟩ : ConsumeResult)
            else afterLoop (reads + 1) messages).err = none := by
          split
          · rfl
          · exact afterLoop_err _ _
        simp only [or_true, if_true, hlhs, ne_eq, not_true_eq_false, false_iff]
        rintro ⟨j, _, hok, t, ht⟩
        exact ReadError.noConfusion (hno j hok t ht)
      | Other t =>
        simp only [reduceCtorEq, or_self, if_false, ne_eq, not_false_eq_true, true_iff]
        exact ⟨0, by omega, by intro l hl; omega, t, by simpa using hr⟩

/-- A returned error comes with the empty text. -/
theorem consumeLoop_err_text (reader : Reader) :
    ∀ (n i reads : Nat) (messages : List String),
      (consumeLoop reader n i reads messages).err ≠ none →
        (consumeLoop reader n i reads messages).text = "" := by
  intro n
  induction n with
  | zero =>
    intro i reads messages h
    simp [consumeLoop, afterLoop_err] at h
  | succ n ih =>
    intro i reads messages
    rw [consumeLoop]
    cases hr : reader reads with
    | ok msg => simpa using ih _ _ _
    | fail err =>
      simp only
      split
      · split
        · intro h; exact absurd rfl h
        · intro h; exact absurd (afterLoop_err _ _) h
      · intro _; rfl

/-- The counters of the loop: it makes at most `n` further reads, appends at
most one message per read, and every read before its last one succeeded. -/
theorem consumeLoop_bounds (reader : Reader) :
    ∀ (n i reads : Nat) (messages : List String),
      (consumeLoop reader n i reads messages).reads ≤ reads + n ∧
      (consumeLoop reader n i reads messages).messages.length ≤ messages.length + n ∧
      (consumeLoop reader n i reads messages).messages.length + reads ≤
        messages.length + (consumeLoop reader n i reads messages).reads ∧
      ∀ j, reads ≤ j → j + 1 < (consumeLoop reader n i reads messages).reads →
        ∃ m, reader j = .ok m := by
  intro n
  induction n with
  | zero =>
    intro i reads messages
    simp only [consumeLoop, afterLoop_reads, afterLoop_messages]
    refine ⟨by omega, by omega, by omega, ?_⟩
    intro j h1 h2; omega
  | succ n ih =>
    intro i reads messages
    rw [consumeLoop]
    cases hr : reader reads with
    | ok msg =>
      simp only
      obtain ⟨h1, h2, h3, h4⟩ := ih (i + 1) (reads + 1) (messages ++ [messageStr msg])
      simp only [List.length_append, List.length_singleton] at h2 h3
      refine ⟨by omega, by omega, by omega, ?_⟩
      intro j hj1 hj2
      by_cases hj : j = reads
      · exact ⟨msg, by rw [hj]; exact hr⟩
      · exact h4 j (by omega) hj2
    | fail err =>
      simp only
      have key : ∀ res : ConsumeResult, res.reads = reads + 1 → res.messages = messages →
          res.reads ≤ reads + (n + 1) ∧ res.messages.length ≤ messages.length + (n + 1) ∧
          res.messages.length + reads ≤ messages.length + res.reads ∧
          ∀ j, reads ≤ j → j + 1 < res.reads → ∃ m, reader j = .ok m := by
        intro res hreads hmsgs
        rw [hreads, hmsgs]
        refine ⟨by omega, by omega, by omega, ?_⟩
        intro j h1 h2; omega
      split
      · split
        · exact key _ rfl rfl
        · exact key _ (afterLoop_reads _ _) (afterLoop_messages _ _)
      · exact key _ rfl rfl

/-- The text after the loop is the fixed text or starts with the number 1. -/
theorem afterLoop_text_shape (reads : Nat) (messages : List String) :
    (afterLoop reads messages).text = emptyText ∨
      ∃ rest, (afterLoop reads messages).text = "1. " ++ rest := by
  cases messages with
  | nil => exact Or.inl rfl
  | cons m ms =>
    right
    have h := afterLoop_text_map id (m :: ms) reads (by simp)
    simp only [List.map_id] at h
    rw [h]
    simp only [List.enum, List.enumFrom_cons, List.map_cons, join_cons, id]
    have h1 : Nat.repr (0 + 1) = "1" := by decide
    rw [h1]
    exact ⟨_, by simp only [String.append_assoc]; rfl⟩

/-- A successful return of the loop is the fixed text or starts with the
number 1. -/
theorem consumeLoop_text_shape (reader : Reader) :
    ∀ (n i reads : Nat) (messages : List String),
      (consumeLoop reader n i reads messages).err = none →
        (consumeLoop reader n i reads messages).text = emptyText ∨
          ∃ rest, (consumeLoop reader n i reads messages).text = "1. " ++ rest := by
  intro n
  induction n with
  | zero =>
    intro i reads messages _
    exact afterLoop_text_shape _ _
  | succ n ih =>
    intro i reads messages
    rw [consumeLoop]
    cases hr : reader reads with
    | ok msg => simpa using ih _ _ _
    | fail err =>
      simp only
      split
      · split
        · intro _; exact Or.inl rfl
        · intro _; exact afterLoop_text_shape _ _
      · intro h; simp at h

/-! ## Newlines in rendered text -/

theorem digitChar_ne_newline (d : Nat) : Nat.digitChar d ≠ '\n' := by
  by_cases h : d < 16
  · interval_cases d <;> decide
  · have hd : ∀ k, k < 16 → ¬ d = k := fun k hk e => h (e ▸ hk)
    have hstar : Nat.digitChar d = '*' := by
      unfold Nat.digitChar
      simp only [hd 0 (by decide), hd 1 (by decide), hd 2 (by decide), hd 3 (by decide),
        hd 4 (by decide), hd 5 (by decide), hd 6 (by decide), hd 7 (by decide),
        hd 8 (by decide), hd 9 (by decide), hd 10 (by decide), hd 11 (by decide),
        hd 12 (by decide), hd 13 (by decide), hd 14 (by decide), hd 15 (by decide), if_false]
    rw [hstar]
    decide

theorem toDigitsCore_no_newline (fuel : Nat) :
    ∀ (n : Nat) (ds : List Char), '\n' ∉ ds → '\n' ∉ Nat.toDigitsCore 10 fuel n ds := by
  induction fuel with
  | zero => intro n ds h; simpa [Nat.toDigitsCore] using h
  | succ fuel ih =>
    intro n ds h
    have hcons : '\n' ∉ Nat.digitChar (n % 10) :: ds := by
      simp only [List.mem_cons, not_or]
      exact ⟨fun e => digitChar_ne_newline _ e.symm, h⟩
    simp only [Nat.toDigitsCore]
    split
    · exact hcons
    · exact ih _ _ hcons

theorem repr_no_newline (n : Nat) : '\n' ∉ (Nat.repr n).data := by
  simp only [Nat.repr, Nat.toDigits, List.asString]
  exact toDigitsCore_no_newline _ _ _ (by simp)

theorem fmtInt_no_newline (x : Int) : '\n' ∉ (fmtInt x).data := by
  unfold fmtInt
  split
  · simp only [String.data_append, List.mem_append, not_or]
    exact ⟨by decide, repr_no_newline _⟩
  · exact repr_no_newline _

theorem appendInt_no_newline (x : Int) (width : Nat) : '\n' ∉ (appendInt x width).data := by
  unfold appendInt
  simp only [String.data_append, List.mem_append, not_or]
  refine ⟨⟨?_, ?_⟩, repr_no_newline _⟩
  · split <;> decide
  · intro h
    have := List.eq_of_mem_replicate h
    exact absurd this (by decide)

theorem format_no_newline (t : Time) : '\n' ∉ (t.Format).data := by
  unfold Time.Format
  simp only [String.data_append, List.mem_append, not_or]
  refine ⟨⟨⟨⟨⟨⟨⟨⟨⟨⟨?_, ?_⟩, ?_⟩, ?_⟩, ?_⟩, ?_⟩, ?_⟩, ?_⟩, ?_⟩, ?_⟩, ?_⟩
  all_goals first
    | exact appendInt_no_newline _ _
    | decide

/-- The text of one message has a newline only where its key or its value
has one. -/
theorem messageStr_no_newline (msg : Message)
    (hk : '\n' ∉ msg.Key.data) (hv : '\n' ∉ msg.Value.data) :
    '\n' ∉ (messageStr msg).data := by
  unfold messageStr
  simp only [String.data_append, List.mem_append, not_or]
  have hkey : '\n' ∉ (if msg.Key.length > 0 then "Key: " ++ msg.Key ++ ", " else "").data := by
    split
    · simp only [String.data_append, List.mem_append, not_or]
      exact ⟨⟨by decide, hk⟩, by decide⟩
    · decide
  exact ⟨⟨⟨⟨⟨⟨⟨⟨⟨⟨by decide, format_no_newline _⟩, by decide⟩, hkey⟩, by decide⟩, hv⟩,
    by decide⟩, fmtInt_no_newline _⟩, by decide⟩, fmtInt_no_newline _⟩, by decide⟩

/-- A number below `10 ^ width` is printed by `appendInt` on exactly `width`
characters. -/
theorem appendInt_length (x : Nat) (width : Nat) (hw : 0 < width) (hx : x < 10 ^ width) :
    (appendInt (x : Int) width).length = width := by
  have hlen : (Nat.repr x).length ≤ width := Nat.repr_length x width hw hx
  have hneg : ¬ ((x : Int) < 0) := by omega
  unfold appendInt
  simp only [if_neg hneg, String.length_append, Int.natAbs_ofNat]
  have h0 : ("" : String).length = 0 := rfl
  have hr : (String.mk (List.replicate (width - (Nat.repr x).length) '0')).length =
      width - (Nat.repr x).length :=
    List.length_replicate _ _
  rw [h0, hr]
  omega

/-- The timestamp of a time whose year has at most four digits and whose other
fields have at most two takes 19 characters: `yyyy-MM-dd HH:mm:ss`. -/
theorem format_length (year month day hour minute second : Nat)
    (hy : year < 10000) (hmo : month < 100) (hd : day < 100) (hh : hour < 100)
    (hmi : minute < 100) (hs : second < 100) :
    (Time.Format ⟨(year : Int), month, day, hour, minute, second⟩).length = 19 := by
  unfold Time.Format
  simp only [String.length_append]
  rw [appendInt_length year 4 (by decide) (by simpa using hy),
    appendInt_length month 2 (by decide) (by simpa using hmo),
    appendInt_length day 2 (by decide) (by simpa using hd),
    appendInt_length hour 2 (by decide) (by simpa using hh),
    appendInt_length minute 2 (by decide) (by simpa using hmi),
    appendInt_length second 2 (by decide) (by simpa using hs)]
  rfl

theorem textLines_append_newline (l : List Char) (h : '\n' ∉ l) (rest : List Char) :
    textLines (l ++ '\n' :: rest) = l :: textLines rest := by
  induction l with
  | nil => simp [textLines]
  | cons c cs ih =>
    have hc : c ≠ '\n' := fun e => h (by simp [e])
    have hcs : '\n' ∉ cs := fun e => h (by simp [e])
    rw [List.cons_append, textLines, if_neg hc, ih hcs]

/-- Texts without a newline, each followed by a newline, are the lines of
their concatenation. -/
theorem textLines_join_lines (ls : List String) (h : ∀ l ∈ ls, '\n' ∉ l.data) :
    textLines (String.join (ls.map (fun l => l ++ "\n"))).data = ls.map String.data := by
  induction ls with
  | nil => rfl
  | cons l ls ih =>
    have hl : '\n' ∉ l.data := h l (by simp)
    have hls : ∀ l ∈ ls, '\n' ∉ l.data := fun x hx => h x (by simp [hx])
    simp only [List.map_cons, join_cons, String.data_append]
    rw [List.append_assoc, List.singleton_append, textLines_append_newline l.data hl, ih hls]

/-- On a successful return the text is the one the code after the loop builds
from the slice `messages`, provided the slice is empty whenever `i` is 0. -/
theorem consumeLoop_text_of_messages (reader : Reader) :
    ∀ (n i reads : Nat) (messages : List String), (i = 0 → messages = []) →
      (consumeLoop reader n i reads messages).err = none →
        (consumeLoop reader n i reads messages).text =
          (afterLoop 0 (consumeLoop reader n i reads messages).messages).text := by
  intro n
  induction n with
  | zero =>
    intro i reads messages _ _
    simp only [consumeLoop, afterLoop_messages]
    unfold afterLoop; split <;> rfl
  | succ n ih =>
    intro i reads messages hinv
    rw [consumeLoop]
    cases hr : reader reads with
    | ok msg =>
      simp only
      exact ih _ _ _ (by omega)
    | fail err =>
      simp only
      split
      · split
        · rename_i hi
          intro _
          simp only [hinv hi]
          rfl
        · intro _
          simp only [afterLoop_messages]
          unfold afterLoop; split <;> rfl
      · intro h; simp at h

theorem length_pos_iff_ne_empty (s : String) : s.length > 0 ↔ s ≠ "" := by
  constructor
  · intro h e
    rw [e] at h
    exact absurd h (by decide)
  · intro h
    rcases s with ⟨l⟩
    cases l with
    | nil => exact absurd rfl h
    | cons c cs => simp [String.length]

/-- The text built for a message, numbered, is the specified line. -/
theorem specLine_eq (i : Nat) (m : Message) :
    Nat.repr (i + 1) ++ ". " ++ messageStr m = specLine i m := by
  have e : ∀ X : String, ". " ++ ("[" ++ X) = ". [" ++ X := fun X => by
    rw [← String.append_assoc]; rfl
  unfold messageStr specLine
  by_cases h : m.Key = ""
  · have hl : ¬ m.Key.length > 0 := fun hp => (length_pos_iff_ne_empty _).1 hp h
    simp only [if_neg hl, if_pos h, String.append_assoc, e]
  · have hl : m.Key.length > 0 := (length_pos_iff_ne_empty _).2 h
    simp only [if_pos hl, if_neg h, String.append_assoc, e]

theorem specLine_no_newline (i : Nat) (m : Message)
    (hk : '\n' ∉ m.Key.data) (hv : '\n' ∉ m.Value.data) : '\n' ∉ (specLine i m).data := by
  rw [← specLine_eq]
  simp only [String.data_append, List.mem_append, not_or]
  exact ⟨⟨repr_no_newline _, by decide⟩, messageStr_no_newline m hk hv⟩

/-- The text returned for the messages `ms`: the specified lines, each
followed by a newline. -/
theorem afterLoop_text_spec (ms : List Message) (reads : Nat) (h : ms ≠ []) :
    (afterLoop reads (ms.map messageStr)).text =
      String.join (ms.enum.map (fun p => specLine p.1 p.2 ++ "\n")) := by
  rw [afterLoop_text_map messageStr ms reads h]
  have e : (fun p : Nat × Message => Nat.repr (p.1 + 1) ++ ". " ++ messageStr p.2 ++ "\n") =
      fun p => specLine p.1 p.2 ++ "\n" := by
    funext p
    rw [specLine_eq]
  rw [e]

/-- A run whose first `ms.length` reads give the messages `ms` and which then
stops, at the count or at a context error, returns their rendering. -/
theorem consume_run (newReader : String → String → Reader) (broker topic : String)
    (maxCount : Int) (ms : List Message) (hne : ms ≠ [])
    (hok : ∀ j (h : j < ms.length), newReader broker topic j = .ok (ms.get ⟨j, h⟩))
    (hstop : (ms.length : Int) = maxCount ∨
      ((ms.length : Int) < maxCount ∧
        (newReader broker topic ms.length = .fail .DeadlineExceeded ∨
          newReader broker topic ms.length = .fail .Canceled))) :
    consumeKafkaMessages newReader broker topic maxCount =
      ⟨(afterLoop 0 (ms.map messageStr)).text, none,
        if (ms.length : Int) = maxCount then ms.length else ms.length + 1,
        ms.map messageStr⟩ := by
  have hok0 : ∀ j (h : j < ms.length), newReader broker topic (0 + j) = .ok (ms.get ⟨j, h⟩) := by
    intro j h; simpa using hok j h
  have hlen : ¬ (ms.map messageStr).length = 0 := by
    simpa [List.length_eq_zero] using hne
  have hpos : ¬ ms.length = 0 := by simpa [List.length_eq_zero] using hne
  unfold consumeKafkaMessages
  rcases hstop with heq | ⟨hlt, hfail⟩
  · have hn : maxCount.toNat = ms.length + 0 := by omega
    rw [hn, consumeLoop_ok_run _ ms 0 0 0 [] hok0, if_pos heq]
    simp only [consumeLoop, List.nil_append, Nat.zero_add]
    unfold afterLoop
    simp only [if_neg hlen]
  · obtain ⟨n, hn⟩ : ∃ n, maxCount.toNat = ms.length + (n + 1) := ⟨maxCount.toNat - ms.length - 1, by omega⟩
    have hneq : ¬ (ms.length : Int) = maxCount := by omega
    rw [hn, consumeLoop_ok_run _ ms (n + 1) 0 0 [] hok0, if_neg hneq]
    simp only [List.nil_append, Nat.zero_add]
    rw [consumeLoop]
    rcases hfail with hf | hf <;>
    · rw [hf]
      simp only [true_or, or_true, if_true, if_neg hpos]
      unfold afterLoop
      simp only [if_neg hlen]

/-- Numbered texts without a newline, each followed by a newline, are the
lines of their concatenation. -/
theorem textLines_numbered {α : Type} (f : Nat → α → String) (ms : List α) :
    ∀ i, (∀ k, ∀ m ∈ ms, '\n' ∉ (f k m).data) →
      textLines (String.join ((ms.enumFrom i).map (fun p => f p.1 p.2 ++ "\n"))).data =
        (ms.enumFrom i).map (fun p => (f p.1 p.2).data) := by
  induction ms with
  | nil => intro i _; rfl
  | cons m rest ih =>
    intro i h
    have hm : '\n' ∉ (f i m).data := h i m (by simp)
    have hrest : ∀ k, ∀ x ∈ rest, '\n' ∉ (f k x).data := fun k x hx => h k x (by simp [hx])
    simp only [List.enumFrom_cons, List.map_cons, join_cons, String.data_append]
    rw [List.append_assoc, List.singleton_append, textLines_append_newline _ hm, ih (i + 1) hrest]

/-! ## The claims about `consumeKafkaMessages` -/

/-- C1: for every `maxCount ≥ 1`, when the first read fails with
deadline-exceeded or cancelled, the call returns the fixed text
"Topic is empty or no new messages" with no error, after that one read. -/
theorem consume_first_read_deadline (newReader : String → String → Reader)
    (broker topic : String) (maxCount : Int) (hcount : 1 ≤ maxCount) (err : ReadError)
    (herr : err = .DeadlineExceeded ∨ err = .Canceled)
    (hfirst : newReader broker topic 0 = .fail err) :
    (consumeKafkaMessages newReader broker topic maxCount).text =
        "Topic is empty or no new messages" ∧
      (consumeKafkaMessages newReader broker topic maxCount).err = none ∧
      (consumeKafkaMessages newReader broker topic maxCount).reads = 1 := by
  obtain ⟨n, hn⟩ : ∃ n, maxCount.toNat = n + 1 := ⟨maxCount.toNat - 1, by omega⟩
  unfold consumeKafkaMessages
  rw [hn, consumeLoop, hfirst]
  rcases herr with h | h <;> subst h <;> exact ⟨rfl, rfl, rfl⟩

/-- C1 at a reader that times out at once, with `maxCount = 3`. -/
theorem consume_first_read_deadline_witness :
    (consumeKafkaMessages (fun _ _ => readerOf [] (.fail .DeadlineExceeded)) "b" "t" 3).text =
        "Topic is empty or no new messages" ∧
      (consumeKafkaMessages (fun _ _ => readerOf [] (.fail .DeadlineExceeded)) "b" "t" 3).err =
        none ∧
      (consumeKafkaMessages (fun _ _ => readerOf [] (.fail .DeadlineExceeded)) "b" "t" 3).reads =
        1 :=
  consume_first_read_deadline (fun _ _ => readerOf [] (.fail .DeadlineExceeded)) "b" "t" 3
    (by decide) .DeadlineExceeded (Or.inl rfl) rfl

/-- C2: for every `maxCount` and every `k` with `0 < k < maxCount`, when the
first `k` reads give the messages `ms` (`k = ms.length`) and read `k+1` fails
with deadline-exceeded or cancelled, the call returns no error, the text is the
rendering of exactly those `k` messages in read order, numbered from 1 to `k`,
and no read follows the failing one (`k + 1` reads in all). -/
theorem consume_partial_on_deadline (newReader : String → String → Reader)
    (broker topic : String) (maxCount : Int) (ms : List Message) (err : ReadError)
    (hpos : 0 < ms.length) (hlt : (ms.length : Int) < maxCount)
    (hok : ∀ j (h : j < ms.length), newReader broker topic j = .ok (ms.get ⟨j, h⟩))
    (herr : err = .DeadlineExceeded ∨ err = .Canceled)
    (hfail : newReader broker topic ms.length = .fail err) :
    (consumeKafkaMessages newReader broker topic maxCount).err = none ∧
      (consumeKafkaMessages newReader broker topic maxCount).text =
        String.join (ms.enum.map
          (fun p => Nat.repr (p.1 + 1) ++ ". " ++ messageStr p.2 ++ "\n")) ∧
      (consumeKafkaMessages newReader broker topic maxCount).reads = ms.length + 1 := by
  have hne : ms ≠ [] := by
    intro e; rw [e] at hpos; exact absurd hpos (by decide)
  have hstop : (ms.length : Int) = maxCount ∨
      ((ms.length : Int) < maxCount ∧
        (newReader broker topic ms.length = .fail .DeadlineExceeded ∨
          newReader broker topic ms.length = .fail .Canceled)) := by
    right
    refine ⟨hlt, ?_⟩
    rcases herr with h | h
    · left; rw [hfail, h]
    · right; rw [hfail, h]
  rw [consume_run newReader broker topic maxCount ms hne hok hstop]
  have hneq : ¬ (ms.length : Int) = maxCount := by omega
  exact ⟨rfl, afterLoop_text_map messageStr ms 0 hne, by simp only [if_neg hneq]⟩

/-- C2 at two messages followed by a timeout, with `maxCount = 5`. -/
theorem consume_partial_on_deadline_witness :
    (consumeKafkaMessages
        (fun _ _ => readerOf [.ok msgA, .ok msgB] (.fail .DeadlineExceeded)) "b" "t" 5).err =
        none ∧
      (consumeKafkaMessages
        (fun _ _ => readerOf [.ok msgA, .ok msgB] (.fail .DeadlineExceeded)) "b" "t" 5).text =
        String.join ([msgA, msgB].enum.map
          (fun p => Nat.repr (p.1 + 1) ++ ". " ++ messageStr p.2 ++ "\n")) ∧
      (consumeKafkaMessages
        (fun _ _ => readerOf [.ok msgA, .ok msgB] (.fail .DeadlineExceeded)) "b" "t" 5).reads =
        [msgA, msgB].length + 1 :=
  consume_partial_on_deadline
    (fun _ _ => readerOf [.ok msgA, .ok msgB] (.fail .DeadlineExceeded)) "b" "t" 5
    [msgA, msgB] .DeadlineExceeded (by decide) (by decide)
    (fun j h => match j, h with
      | 0, _ => rfl
      | 1, _ => rfl
      | n + 2, h => absurd h (by simp))
    (Or.inl rfl) rfl

/-- C3: the call returns an error exactly when the first failing read among
the first `maxCount` reads fails with an error other than deadline-exceeded and
cancelled; the text returned with an error is empty, however many messages were
read before; and when that first failing read is deadline-exceeded or
cancelled, no error is returned. Holds for every `maxCount`, so for every
`maxCount ≥ 1`. -/
theorem consume_error_iff (newReader : String → String → Reader)
    (broker topic : String) (maxCount : Int) :
    ((consumeKafkaMessages newReader broker topic maxCount).err ≠ none ↔
        ∃ j : Nat, (j : Int) < maxCount ∧
          (∀ l, l < j → ∃ m, newReader broker topic l = .ok m) ∧
          ∃ t, newReader broker topic j = .fail (.Other t)) ∧
      ((consumeKafkaMessages newReader broker topic maxCount).err ≠ none →
        (consumeKafkaMessages newReader broker topic maxCount).text = "") ∧
      (∀ j : Nat, (j : Int) < maxCount →
        (∀ l, l < j → ∃ m, newReader broker topic l = .ok m) →
        (newReader broker topic j = .fail .DeadlineExceeded ∨
          newReader broker topic j = .fail .Canceled) →
        (consumeKafkaMessages newReader broker topic maxCount).err = none) := by
  have hiff : (consumeKafkaMessages newReader broker topic maxCount).err ≠ none ↔
      ∃ j : Nat, (j : Int) < maxCount ∧
        (∀ l, l < j → ∃ m, newReader broker topic l = .ok m) ∧
        ∃ t, newReader broker topic j = .fail (.Other t) := by
    unfold consumeKafkaMessages
    rw [consumeLoop_err_iff]
    simp only [Nat.zero_add]
    constructor
    · rintro ⟨j, hj, hrest⟩
      exact ⟨j, by omega, hrest⟩
    · rintro ⟨j, hj, hrest⟩
      exact ⟨j, by omega, hrest⟩
  refine ⟨hiff, ?_, ?_⟩
  · unfold consumeKafkaMessages
    exact consumeLoop_err_text _ _ _ _ _
  · intro j _ hok hfail
    by_contra herr
    obtain ⟨j2, _, hok2, t, ht⟩ := hiff.1 herr
    rcases Nat.lt_trichotomy j2 j with hlt | heq | hgt
    · obtain ⟨m, hm⟩ := hok j2 hlt
      rw [ht] at hm
      exact ReadOutcome.noConfusion hm
    · rw [heq] at ht
      rcases hfail with hf | hf
      · rw [hf] at ht
        exact ReadError.noConfusion (ReadOutcome.fail.inj ht)
      · rw [hf] at ht
        exact ReadError.noConfusion (ReadOutcome.fail.inj ht)
    · obtain ⟨m, hm⟩ := hok2 j hgt
      rcases hfail with hf | hf
      · rw [hf] at hm
        exact ReadOutcome.noConfusion hm
      · rw [hf] at hm
        exact ReadOutcome.noConfusion hm

/-- C3 at one message followed by a broken connection, with `maxCount = 5`: an
error is returned, and the text is empty although a message had been read. -/
theorem consume_error_iff_witness :
    (consumeKafkaMessages
        (fun _ _ => readerOf [.ok msgA, .fail (.Other "EOF")] (.fail .DeadlineExceeded))
        "b" "t" 5).err ≠ none ∧
      (consumeKafkaMessages
        (fun _ _ => readerOf [.ok msgA, .fail (.Other "EOF")] (.fail .DeadlineExceeded))
        "b" "t" 5).text = "" :=
  have h := consume_error_iff
    (fun _ _ => readerOf [.ok msgA, .fail (.Other "EOF")] (.fail .DeadlineExceeded)) "b" "t" 5
  have herr := h.1.2 ⟨1, by decide, fun l hl => ⟨msgA, by
    have : l = 0 := by omega
    subst this; rfl⟩, "EOF", rfl⟩
  ⟨herr, h.2.1 herr⟩

/-- C4, as stated, fails: with `maxCount = 1` and a first read that gives a
message whose value is `a\nb`, the single read succeeds and the returned text
has two lines, not one. -/
theorem consume_full_lines_counterexample :
    readerOf [.ok msgTwoLines] (.fail .DeadlineExceeded) 0 = .ok msgTwoLines ∧
      (consumeKafkaMessages
        (fun _ _ => readerOf [.ok msgTwoLines] (.fail .DeadlineExceeded)) "b" "t" 1).text =
        "1. [2024-01-02 03:04:05] Value: a\nb (Partition: 0, Offset: 0)\n" ∧
      (textLines (consumeKafkaMessages
        (fun _ _ => readerOf [.ok msgTwoLines] (.fail .DeadlineExceeded)) "b" "t" 1).text.data).length
        = 2 ∧
      ¬ (textLines (consumeKafkaMessages
        (fun _ _ => readerOf [.ok msgTwoLines] (.fail .DeadlineExceeded)) "b" "t" 1).text.data).length
        = 1 := by
  decide

/-- C4, amended: for every `maxCount ≥ 1`, when the first `maxCount` reads give
the messages `ms`, the call makes exactly `maxCount` reads and returns no
error; the text is, for each message in read order, the entry `i. ` (numbered
from 1) followed by the rendering of the `i`-th message read and a newline; and
when no key and no value holds a newline, these entries are exactly the lines
of the text, `maxCount` of them. -/
theorem consume_full (newReader : String → String → Reader)
    (broker topic : String) (maxCount : Int) (ms : List Message)
    (hcount : 1 ≤ maxCount) (hlen : (ms.length : Int) = maxCount)
    (hok : ∀ j (h : j < ms.length), newReader broker topic j = .ok (ms.get ⟨j, h⟩)) :
    (consumeKafkaMessages newReader broker topic maxCount).err = none ∧
      ((consumeKafkaMessages newReader broker topic maxCount).reads : Int) = maxCount ∧
      (consumeKafkaMessages newReader broker topic maxCount).text =
        String.join (ms.enum.map
          (fun p => Nat.repr (p.1 + 1) ++ ". " ++ messageStr p.2 ++ "\n")) ∧
      ((∀ m ∈ ms, '\n' ∉ m.Key.data ∧ '\n' ∉ m.Value.data) →
        textLines (consumeKafkaMessages newReader broker topic maxCount).text.data =
            ms.enum.map (fun p => (Nat.repr (p.1 + 1) ++ ". " ++ messageStr p.2).data) ∧
          ((textLines
            (consumeKafkaMessages newReader broker topic maxCount).text.data).length : Int) =
            maxCount) := by
  have hne : ms ≠ [] := by
    intro e; rw [e] at hlen; simp at hlen; omega
  have hrun := consume_run newReader broker topic maxCount ms hne hok (Or.inl hlen)
  rw [if_pos hlen] at hrun
  rw [hrun]
  refine ⟨rfl, hlen, afterLoop_text_map messageStr ms 0 hne, ?_⟩
  intro hnl
  show textLines (afterLoop 0 (ms.map messageStr)).text.data = _ ∧
    ((textLines (afterLoop 0 (ms.map messageStr)).text.data).length : Int) = maxCount
  have hlines : textLines (afterLoop 0 (ms.map messageStr)).text.data =
      ms.enum.map (fun p => (Nat.repr (p.1 + 1) ++ ". " ++ messageStr p.2).data) := by
    rw [afterLoop_text_map messageStr ms 0 hne]
    refine textLines_numbered (fun i m => Nat.repr (i + 1) ++ ". " ++ messageStr m) ms 0 ?_
    intro k m hm
    simp only [String.data_append, List.mem_append, not_or]
    exact ⟨⟨repr_no_newline _, by decide⟩, messageStr_no_newline m (hnl m hm).1 (hnl m hm).2⟩
  refine ⟨hlines, ?_⟩
  rw [hlines]
  simp [List.enum, hlen]

/-- C4 (amended) at two messages, with `maxCount = 2`. -/
theorem consume_full_witness :
    (consumeKafkaMessages
        (fun _ _ => readerOf [.ok msgA, .ok msgB] (.fail .DeadlineExceeded)) "b" "t" 2).text =
        "1. [2024-01-02 03:04:05] Key: k1, Value: hello (Partition: 0, Offset: 0)\n" ++
          "2. [2024-01-02 03:04:05] Value: world (Partition: 0, Offset: 1)\n" ∧
      ((consumeKafkaMessages
        (fun _ _ => readerOf [.ok msgA, .ok msgB] (.fail .DeadlineExceeded)) "b" "t" 2).reads :
          Int) = 2 :=
  have h := consume_full
    (fun _ _ => readerOf [.ok msgA, .ok msgB] (.fail .DeadlineExceeded)) "b" "t" 2
    [msgA, msgB] (by decide) (by decide)
    (fun j h => match j, h with
      | 0, _ => rfl
      | 1, _ => rfl
      | n + 2, h => absurd h (by simp))
  ⟨h.2.2.1.trans (by decide), h.2.1⟩

/-- C5, as stated, fails for a negative `maxCount`: with `maxCount = -1` the
call succeeds, having made 0 reads and rendered 0 messages, and 0 is not
`≤ -1`. -/
theorem consume_bounds_counterexample :
    (consumeKafkaMessages (fun _ _ => readerOf [] (.fail .DeadlineExceeded)) "b" "t" (-1)).err =
        none ∧
      ¬ (((consumeKafkaMessages (fun _ _ => readerOf [] (.fail .DeadlineExceeded))
        "b" "t" (-1)).messages.length : Int) ≤ -1) ∧
      ¬ (((consumeKafkaMessages (fun _ _ => readerOf [] (.fail .DeadlineExceeded))
        "b" "t" (-1)).reads : Int) ≤ -1) := by
  decide

/-- C5, amended: for every `maxCount` and every sequence of read outcomes, the
number of messages in the slice at return is at most `max maxCount 0` and at
most the number of reads made; the loop makes at most `max maxCount 0` reads;
every read before the last one made was a success (no read follows a failed
one); and a successful result with a non-empty slice renders exactly the
messages of the slice. For `maxCount ≥ 0` the two bounds are `maxCount`
itself. -/
theorem consume_bounds (newReader : String → String → Reader)
    (broker topic : String) (maxCount : Int) :
    ((consumeKafkaMessages newReader broker topic maxCount).messages.length : Int) ≤
        max maxCount 0 ∧
      (consumeKafkaMessages newReader broker topic maxCount).messages.length ≤
        (consumeKafkaMessages newReader broker topic maxCount).reads ∧
      ((consumeKafkaMessages newReader broker topic maxCount).reads : Int) ≤ max maxCount 0 ∧
      (∀ j, j + 1 < (consumeKafkaMessages newReader broker topic maxCount).reads →
        ∃ m, newReader broker topic j = .ok m) ∧
      ((consumeKafkaMessages newReader broker topic maxCount).err = none →
        (consumeKafkaMessages newReader broker topic maxCount).messages ≠ [] →
        (consumeKafkaMessages newReader broker topic maxCount).text =
          String.join ((consumeKafkaMessages newReader broker topic maxCount).messages.enum.map
            (fun p => Nat.repr (p.1 + 1) ++ ". " ++ p.2 ++ "\n"))) ∧
      (0 ≤ maxCount →
        ((consumeKafkaMessages newReader broker topic maxCount).messages.length : Int) ≤
            maxCount ∧
          ((consumeKafkaMessages newReader broker topic maxCount).reads : Int) ≤ maxCount) := by
  have hb := consumeLoop_bounds (newReader broker topic) maxCount.toNat 0 0 []
  have ht := consumeLoop_text_of_messages (newReader broker topic) maxCount.toNat 0 0 []
    (fun _ => rfl)
  unfold consumeKafkaMessages
  obtain ⟨h1, h2, h3, h4⟩ := hb
  simp only [List.length_nil, Nat.zero_add, Nat.add_zero] at h1 h2 h3
  refine ⟨by omega, by omega, by omega, fun j hj => h4 j (Nat.zero_le _) hj, ?_, ?_⟩
  · intro herr hne
    rw [ht herr]
    have := afterLoop_text_map id _ 0 hne
    simpa only [List.map_id, id] using this
  · intro h0
    exact ⟨by omega, by omega⟩

/-- C5 (amended) at a message followed by a timeout, with `maxCount = 3`: one
message, two reads. -/
theorem consume_bounds_witness :
    ((consumeKafkaMessages
        (fun _ _ => readerOf [.ok msgA] (.fail .DeadlineExceeded)) "b" "t" 3).messages.length :
          Int) ≤ 3 ∧
      ((consumeKafkaMessages
        (fun _ _ => readerOf [.ok msgA] (.fail .DeadlineExceeded)) "b" "t" 3).reads : Int) ≤ 3 :=
  (consume_bounds (fun _ _ => readerOf [.ok msgA] (.fail .DeadlineExceeded)) "b" "t" 3).2.2.2.2.2
    (by decide)

/-- C6, as stated, fails twice. The returned text is not the lines joined by
newlines: a newline also follows the last line. And a message does not always
occupy one line: the message with value `a\nb` takes two. -/
theorem consume_text_counterexample :
    (consumeKafkaMessages
        (fun _ _ => readerOf [.ok msgA] (.fail .DeadlineExceeded)) "b" "t" 1).text ≠
        String.intercalate "\n" [specLine 0 msgA] ∧
      (consumeKafkaMessages
        (fun _ _ => readerOf [.ok msgA] (.fail .DeadlineExceeded)) "b" "t" 1).text =
        String.intercalate "\n" [specLine 0 msgA] ++ "\n" ∧
      (textLines (consumeKafkaMessages
        (fun _ _ => readerOf [.ok msgTwoLines] (.fail .DeadlineExceeded)) "b" "t" 1).text.data) =
        ["1. [2024-01-02 03:04:05] Value: a".data, "b (Partition: 0, Offset: 0)".data] := by
  decide

/-- C6, amended: for every non-empty sequence `ms` of messages read (the reads
stop at the count, or at a deadline-exceeded or cancelled read), the text is
the per-message lines in read order, each followed by a newline, the last one
too; the line of the `i`-th message (1-based) is `i. [<timestamp>] `, then
`Key: <key>, ` exactly when the key is not empty, then
`Value: <value> (Partition: <p>, Offset: <o>)`; and when no key and no value
holds a newline, each message occupies exactly one line of the text. -/
theorem consume_text (newReader : String → String → Reader)
    (broker topic : String) (maxCount : Int) (ms : List Message) (hne : ms ≠ [])
    (hok : ∀ j (h : j < ms.length), newReader broker topic j = .ok (ms.get ⟨j, h⟩))
    (hstop : (ms.length : Int) = maxCount ∨
      ((ms.length : Int) < maxCount ∧
        (newReader broker topic ms.length = .fail .DeadlineExceeded ∨
          newReader broker topic ms.length = .fail .Canceled))) :
    (consumeKafkaMessages newReader broker topic maxCount).text =
        String.join (ms.enum.map (fun p => specLine p.1 p.2 ++ "\n")) ∧
      ((∀ m ∈ ms, '\n' ∉ m.Key.data ∧ '\n' ∉ m.Value.data) →
        textLines (consumeKafkaMessages newReader broker topic maxCount).text.data =
          ms.enum.map (fun p => (specLine p.1 p.2).data)) := by
  rw [consume_run newReader broker topic maxCount ms hne hok hstop]
  simp only
  refine ⟨afterLoop_text_spec ms 0 hne, ?_⟩
  intro hnl
  rw [afterLoop_text_spec ms 0 hne]
  exact textLines_numbered specLine ms 0
    (fun k m hm => specLine_no_newline k m (hnl m hm).1 (hnl m hm).2)

/-- C6 (amended) at a message with a key and a message without, followed by a
timeout. -/
theorem consume_text_witness :
    (consumeKafkaMessages
        (fun _ _ => readerOf [.ok msgA, .ok msgB] (.fail .DeadlineExceeded)) "b" "t" 5).text =
        "1. [2024-01-02 03:04:05] Key: k1, Value: hello (Partition: 0, Offset: 0)\n" ++
          "2. [2024-01-02 03:04:05] Value: world (Partition: 0, Offset: 1)\n" :=
  (consume_text
    (fun _ _ => readerOf [.ok msgA, .ok msgB] (.fail .DeadlineExceeded)) "b" "t" 5
    [msgA, msgB] (by simp)
    (fun j h => match j, h with
      | 0, _ => rfl
      | 1, _ => rfl
      | n + 2, h => absurd h (by simp))
    (Or.inr ⟨by decide, Or.inl rfl⟩)).1.trans (by decide)

/-! ## The `count` of the `consume_messages` handler -/

theorem toInt_intCast (n : Int) : toInt (n : ℚ) = n := by
  simp [toInt]

/-- Truncation keeps a number that is at least 1 at least 1. -/
theorem toInt_ge_one (c : ℚ) (h : 1 ≤ c) : 1 ≤ toInt c := by
  unfold toInt
  have hden : (0 : Int) < c.den := by exact_mod_cast c.den_pos
  have hnum : (c.den : Int) ≤ c.num := by
    have h1 : (1 : ℚ) ≤ (c.num : ℚ) / (c.den : ℚ) := by rw [Rat.num_div_den]; exact h
    have hdq : (0 : ℚ) < (c.den : ℚ) := by exact_mod_cast c.den_pos
    rw [le_div_iff₀ hdq, one_mul] at h1
    exact_mod_cast h1
  have hnn : 0 ≤ c.num := le_trans (le_of_lt hden) hnum
  rw [Int.tdiv_eq_ediv hnn (le_of_lt hden)]
  exact (Int.le_ediv_iff_mul_le hden).2 (by simpa using hnum)

/-- Truncation sends a number strictly between 0 and 1 to 0. -/
theorem toInt_fraction (c : ℚ) (h0 : 0 < c) (h1 : c < 1) : toInt c = 0 := by
  unfold toInt
  have hden : (0 : Int) < c.den := by exact_mod_cast c.den_pos
  have hnum0 : 0 < c.num := Rat.num_pos.2 h0
  have hnum : c.num < (c.den : Int) := by
    have h2 : (c.num : ℚ) / (c.den : ℚ) < 1 := by rw [Rat.num_div_den]; exact h1
    have hdq : (0 : ℚ) < (c.den : ℚ) := by exact_mod_cast c.den_pos
    rw [div_lt_iff₀ hdq, one_mul] at h2
    exact_mod_cast h2
  rw [Int.tdiv_eq_ediv (le_of_lt hnum0) (le_of_lt hden)]
  exact Int.ediv_eq_zero_of_lt (le_of_lt hnum0) hnum

/-- What lines 168-171 compute from the number `c` that `GetFloat` returns:
the default 10 for `c ≤ 0`, the number itself for a positive whole number, a
count of at least 1 for every `c ≥ 1`, and 0 for `0 < c < 1`. -/
theorem consumeCount_cases (env : Env) (request : Request) :
    (request.GetFloat env.parseFloat "count" 10 ≤ 0 → consumeCount env request = 10) ∧
      (∀ n : Int, 0 < n → request.GetFloat env.parseFloat "count" 10 = (n : ℚ) →
        consumeCount env request = n) ∧
      (1 ≤ request.GetFloat env.parseFloat "count" 10 → 1 ≤ consumeCount env request) ∧
      (0 < request.GetFloat env.parseFloat "count" 10 →
        request.GetFloat env.parseFloat "count" 10 < 1 → consumeCount env request = 0) := by
  unfold consumeCount
  refine ⟨?_, ?_, ?_, ?_⟩
  · intro h
    simp only [gt_iff_lt, not_lt.2 h, if_false]
  · intro n hn h
    have hpos : (0 : ℚ) < (n : ℚ) := by exact_mod_cast hn
    simp only [h, gt_iff_lt, hpos, if_true, toInt_intCast]
  · intro h
    have hpos : (0 : ℚ) < request.GetFloat env.parseFloat "count" 10 := lt_of_lt_of_le one_pos h
    simp only [gt_iff_lt, hpos, if_true]
    exact toInt_ge_one _ h
  · intro h0 h1
    simp only [gt_iff_lt, h0, if_true]
    exact toInt_fraction _ h0 h1

/-- Without a `count` argument `GetFloat` returns the default, and the count
passed on is 10. -/
theorem consumeCount_absent (env : Env) (request : Request)
    (h : request.args "count" = none) : consumeCount env request = 10 := by
  have hg : request.GetFloat env.parseFloat "count" 10 = 10 := by
    simp [Request.GetFloat, h]
  unfold consumeCount
  rw [hg]
  have h10 : toInt 10 = 10 := toInt_intCast 10
  simp [h10]

/-- C7 at the failing input `count = 0.5`: the test `c > 0` passes, `int(c)`
is 0, and the handler calls `consumeKafkaMessages` with a count of 0; although
the topic has a message ready, no read is made and the topic is reported as
empty. -/
theorem consume_count_half :
    consumeCount (sampleEnv (readerOf [.ok msgA] (.fail .DeadlineExceeded)) [])
        (requestOf [("broker", .str "b"), ("topic", .str "t"), ("count", .num (1 / 2))]) = 0 ∧
      consumeHandler (sampleEnv (readerOf [.ok msgA] (.fail .DeadlineExceeded)) [])
        (requestOf [("broker", .str "b"), ("topic", .str "t"), ("count", .num (1 / 2))]) =
        ⟨NewToolResultText "📨 Messages in topic 't':\n\nTopic is empty or no new messages",
          none, [.consumeKafkaMessages "b" "t" 0]⟩ ∧
      (consumeKafkaMessages (fun _ _ => readerOf [.ok msgA] (.fail .DeadlineExceeded))
        "b" "t" 0).reads = 0 := by
  have hc : consumeCount (sampleEnv (readerOf [.ok msgA] (.fail .DeadlineExceeded)) [])
      (requestOf [("broker", .str "b"), ("topic", .str "t"), ("count", .num (1 / 2))]) = 0 := by
    have hg : (requestOf [("broker", .str "b"), ("topic", .str "t"),
        ("count", .num (1 / 2))]).GetFloat
        (sampleEnv (readerOf [.ok msgA] (.fail .DeadlineExceeded)) []).parseFloat "count" 10 =
        1 / 2 := by
      simp [Request.GetFloat, requestOf, List.lookup]
    refine (consumeCount_cases _ _).2.2.2 ?_ ?_
    · rw [hg]; norm_num
    · rw [hg]; norm_num
  refine ⟨hc, ?_, by decide⟩
  unfold consumeHandler
  simp only [hc]
  decide

/-! ## The tool handlers -/

theorem requireString_of_absent (request : Request) (key : String)
    (h : request.args key = none) : request.RequireString key = none := by
  simp [Request.RequireString, h]

theorem listTopicsHandler_err (env : Env) (request : Request) :
    (listTopicsHandler env request).err = none := by
  unfold listTopicsHandler
  repeat' first
    | rfl
    | split

theorem createTopicHandler_err (env : Env) (request : Request) :
    (createTopicHandler env request).err = none := by
  unfold createTopicHandler
  repeat' first
    | rfl
    | split
    | (dsimp only; split)

theorem produceHandler_err (env : Env) (request : Request) :
    (produceHandler env request).err = none := by
  unfold produceHandler
  repeat' first
    | rfl
    | split
    | (dsimp only; split)

theorem consumeHandler_err (env : Env) (request : Request) :
    (consumeHandler env request).err = none := by
  unfold consumeHandler
  repeat' first
    | rfl
    | split
    | (dsimp only; split)

/-- C8: a request in which a required parameter is missing (`RequireString`
fails on it, as it does on every absent argument) gets, from each of the four
handlers, the tool-level error result that names the first missing parameter
(broker, then topic, then message), with no call of a broker routine; and no
handler ever returns a protocol-level error. -/
theorem handlers_missing_parameter (env : Env) (request : Request) :
    ((listTopicsHandler env request).err = none ∧
        (createTopicHandler env request).err = none ∧
        (produceHandler env request).err = none ∧
        (consumeHandler env request).err = none) ∧
      (∀ key, request.args key = none → request.RequireString key = none) ∧
      (request.RequireString "broker" = none →
        listTopicsHandler env request =
            ⟨NewToolResultError "Missing broker information", none, []⟩ ∧
          createTopicHandler env request =
            ⟨NewToolResultError "Missing broker information", none, []⟩ ∧
          produceHandler env request =
            ⟨NewToolResultError "Missing broker information", none, []⟩ ∧
          consumeHandler env request =
            ⟨NewToolResultError "Missing broker information", none, []⟩) ∧
      (request.RequireString "broker" ≠ none → request.RequireString "topic" = none →
        createTopicHandler env request = ⟨NewToolResultError "Missing topic name", none, []⟩ ∧
          produceHandler env request = ⟨NewToolResultError "Missing topic name", none, []⟩ ∧
          consumeHandler env request = ⟨NewToolResultError "Missing topic name", none, []⟩) ∧
      (request.RequireString "broker" ≠ none → request.RequireString "topic" ≠ none →
        request.RequireString "message" = none →
        produceHandler env request =
          ⟨NewToolResultError "Missing message content", none, []⟩) := by
  refine ⟨⟨listTopicsHandler_err _ _, createTopicHandler_err _ _, produceHandler_err _ _,
    consumeHandler_err _ _⟩, requireString_of_absent request, ?_, ?_, ?_⟩
  · intro hb
    unfold listTopicsHandler createTopicHandler produceHandler consumeHandler
    simp only [hb, and_self]
  · intro hb ht
    obtain ⟨b, hb⟩ := Option.ne_none_iff_exists'.1 hb
    unfold createTopicHandler produceHandler consumeHandler
    simp only [hb, ht, and_self]
  · intro hb ht hm
    obtain ⟨b, hb⟩ := Option.ne_none_iff_exists'.1 hb
    obtain ⟨t, ht⟩ := Option.ne_none_iff_exists'.1 ht
    unfold produceHandler
    simp only [hb, ht, hm]

/-- C8 at a request that names a broker and no topic. -/
theorem handlers_missing_parameter_witness :
    createTopicHandler (sampleEnv (readerOf [] (.fail .DeadlineExceeded)) [])
          (requestOf [("broker", .str "b")]) =
        ⟨NewToolResultError "Missing topic name", none, []⟩ ∧
      produceHandler (sampleEnv (readerOf [] (.fail .DeadlineExceeded)) [])
          (requestOf [("broker", .str "b")]) =
        ⟨NewToolResultError "Missing topic name", none, []⟩ ∧
      consumeHandler (sampleEnv (readerOf [] (.fail .DeadlineExceeded)) [])
          (requestOf [("broker", .str "b")]) =
        ⟨NewToolResultError "Missing topic name", none, []⟩ :=
  (handlers_missing_parameter (sampleEnv (readerOf [] (.fail .DeadlineExceeded)) [])
    (requestOf [("broker", .str "b")])).2.2.2.1 (by decide) (by decide)

/-! ## `listKafkaTopics` -/

theorem mapSet_nodup (topicMap : List String) (key : String) (h : topicMap.Nodup) :
    (mapSet topicMap key).Nodup := by
  unfold mapSet
  split
  · exact h
  · rename_i hk
    exact List.nodup_append.2 ⟨h, List.nodup_singleton _, by
      intro a ha hb
      rw [List.mem_singleton] at hb
      exact hk (hb ▸ ha)⟩

theorem mem_mapSet (topicMap : List String) (key name : String) :
    name ∈ mapSet topicMap key ↔ name ∈ topicMap ∨ name = key := by
  unfold mapSet
  split
  · rename_i hk
    constructor
    · exact Or.inl
    · rintro (h | h)
      · exact h
      · exact h ▸ hk
  · simp

/-- The map filled by lines 25-28 holds each topic once, and exactly the
topics of the partitions next to those it held before. -/
theorem foldl_mapSet (partitions : List Partition) :
    ∀ topicMap : List String, topicMap.Nodup →
      (partitions.foldl (fun m partition => mapSet m partition.Topic) topicMap).Nodup ∧
        ∀ name, name ∈ partitions.foldl (fun m partition => mapSet m partition.Topic) topicMap ↔
          name ∈ topicMap ∨ ∃ p ∈ partitions, p.Topic = name := by
  induction partitions with
  | nil => intro topicMap h; simp [h]
  | cons p rest ih =>
    intro topicMap h
    simp only [List.foldl_cons]
    obtain ⟨h1, h2⟩ := ih (mapSet topicMap p.Topic) (mapSet_nodup _ _ h)
    refine ⟨h1, ?_⟩
    intro name
    rw [h2, mem_mapSet]
    constructor
    · rintro ((h | h) | ⟨q, hq, hqn⟩)
      · exact Or.inl h
      · exact Or.inr ⟨p, by simp, h.symm⟩
      · exact Or.inr ⟨q, by simp [hq], hqn⟩
    · rintro (h | ⟨q, hq, hqn⟩)
      · exact Or.inl (Or.inl h)
      · rcases List.mem_cons.1 hq with e | e
        · exact Or.inl (Or.inr (by rw [← hqn, e]))
        · exact Or.inr ⟨q, e, hqn⟩

theorem foldl_append_singleton (l : List String) :
    ∀ acc : List String, l.foldl (fun topics topic => topics ++ [topic]) acc = acc ++ l := by
  induction l with
  | nil => intro acc; simp
  | cons a l ih => intro acc; simp [ih]

/-- C9: for every list of partitions the broker returns, `listKafkaTopics`
returns topics without duplicates, and a name is among them exactly when it is
the topic of at least one partition; so an empty partition list gives an empty
result, which `list_topics` reports as "No topics found in broker". -/
theorem listKafkaTopics_dedup (env : Env) (broker : String) (partitions : List Partition)
    (hdial : env.dial broker = none) (hread : env.readPartitions broker = .ok partitions) :
    ∃ topics, listKafkaTopics env broker = .ok topics ∧
      topics.Nodup ∧
      (∀ name, name ∈ topics ↔ ∃ p ∈ partitions, p.Topic = name) ∧
      (partitions = [] → topics = [] ∧
        ∀ request : Request, request.RequireString "broker" = some broker →
          (listTopicsHandler env request).result =
            NewToolResultText "No topics found in broker") := by
  obtain ⟨hnd, hmem⟩ := foldl_mapSet partitions [] List.nodup_nil
  have hperm := env.mapOrder_perm
    (partitions.foldl (fun m partition => mapSet m partition.Topic) [])
  have hrun : listKafkaTopics env broker = .ok (env.mapOrder
      (partitions.foldl (fun m partition => mapSet m partition.Topic) [])) := by
    unfold listKafkaTopics
    simp only [hdial, hread, foldl_append_singleton, List.nil_append]
  refine ⟨_, hrun, hperm.nodup_iff.2 hnd, ?_, ?_⟩
  · intro name
    rw [hperm.mem_iff, hmem]
    simp
  · intro hnil
    have hempty : env.mapOrder
        (partitions.foldl (fun m partition => mapSet m partition.Topic) []) = [] := by
      subst hnil
      simpa using hperm
    refine ⟨hempty, ?_⟩
    intro request hreq
    unfold listTopicsHandler
    simp only [hreq, hrun, hempty, List.length_nil, if_true]

/-- C9 at three partitions of two topics, and at no partition. -/
theorem listKafkaTopics_dedup_witness :
    (∃ topics, listKafkaTopics
        (sampleEnv (readerOf [] (.fail .DeadlineExceeded)) [⟨"a", 0⟩, ⟨"b", 0⟩, ⟨"a", 1⟩]) "b" =
          .ok topics ∧
        topics.Nodup ∧
        (∀ name, name ∈ topics ↔
          ∃ p ∈ ([⟨"a", 0⟩, ⟨"b", 0⟩, ⟨"a", 1⟩] : List Partition), p.Topic = name) ∧
        (([⟨"a", 0⟩, ⟨"b", 0⟩, ⟨"a", 1⟩] : List Partition) = [] → topics = [] ∧
          ∀ request : Request, request.RequireString "broker" = some "b" →
            (listTopicsHandler
              (sampleEnv (readerOf [] (.fail .DeadlineExceeded)) [⟨"a", 0⟩, ⟨"b", 0⟩, ⟨"a", 1⟩])
              request).result = NewToolResultText "No topics found in broker")) ∧
      listKafkaTopics
        (sampleEnv (readerOf [] (.fail .DeadlineExceeded)) [⟨"a", 0⟩, ⟨"b", 0⟩, ⟨"a", 1⟩]) "b" =
        .ok ["a", "b"] :=
  ⟨listKafkaTopics_dedup
    (sampleEnv (readerOf [] (.fail .DeadlineExceeded)) [⟨"a", 0⟩, ⟨"b", 0⟩, ⟨"a", 1⟩]) "b"
    [⟨"a", 0⟩, ⟨"b", 0⟩, ⟨"a", 1⟩] rfl rfl, rfl⟩

/-! ## The text of a successful consumption is never empty -/

theorem append_ne_empty_of_left (a b : String) (h : a ≠ "") : a ++ b ≠ "" := by
  intro e
  have hd := congrArg String.data e
  simp only [String.data_append] at hd
  have ha : a.data = [] := (List.append_eq_nil.1 hd).1
  exact h (String.ext ha)

/-- Two texts whose first characters differ are different, whatever follows. -/
theorem append_ne_of_head (c d : Char) (l1 l2 : List Char) (x y : String) (h : c ≠ d) :
    String.mk (c :: l1) ++ x ≠ String.mk (d :: l2) ++ y := by
  intro e
  have hd := congrArg String.data e
  simp only [String.data_append, List.cons_append] at hd
  exact h (List.cons.inj hd).1

/-- A first read that fails with a context error gives the fixed text, for
every count. -/
theorem first_read_context_error_any_count (newReader : String → String → Reader)
    (broker topic : String) (count : Int) (err : ReadError)
    (herr : err = .DeadlineExceeded ∨ err = .Canceled)
    (hfirst : newReader broker topic 0 = .fail err) :
    (consumeKafkaMessages newReader broker topic count).text = emptyText ∧
      (consumeKafkaMessages newReader broker topic count).err = none := by
  unfold consumeKafkaMessages
  cases count.toNat with
  | zero => exact ⟨rfl, rfl⟩
  | succ n =>
    rw [consumeLoop, hfirst]
    rcases herr with h | h <;> subst h <;> exact ⟨rfl, rfl⟩

/-- C10: for every `maxCount`, zero and negative ones included, and every
sequence of read outcomes, a successful return of `consumeKafkaMessages` is
never the empty string: it is the text "Topic is empty or no new messages" or
a text that begins with `1. `, and the former does not begin with `1. `. So
the `consume_messages` handler never returns the result of its branch
`messages == ""`, the text "No messages found in topic '<topic>'"; and a topic
whose first read times out is reported under the header
"Messages in topic '<topic>':". -/
theorem consume_success_never_empty (env : Env) (request : Request)
    (newReader : String → String → Reader) (broker topic : String) (maxCount : Int) :
    ((consumeKafkaMessages newReader broker topic maxCount).err = none →
        (consumeKafkaMessages newReader broker topic maxCount).text ≠ "" ∧
          ((consumeKafkaMessages newReader broker topic maxCount).text =
              "Topic is empty or no new messages" ∨
            ∃ rest, (consumeKafkaMessages newReader broker topic maxCount).text =
              "1. " ++ rest)) ∧
      (¬ ∃ rest, "Topic is empty or no new messages" = "1. " ++ rest) ∧
      (∀ t, (consumeHandler env request).result ≠
        NewToolResultText ("No messages found in topic '" ++ t ++ "'")) ∧
      (∀ b t err, request.RequireString "broker" = some b →
        request.RequireString "topic" = some t →
        env.newReader b t 0 = .fail err → (err = .DeadlineExceeded ∨ err = .Canceled) →
        (consumeHandler env request).result =
          NewToolResultText
            ("📨 Messages in topic '" ++ t ++ "':\n\nTopic is empty or no new messages")) := by
  have hshape : ∀ (nr : String → String → Reader) (b t : String) (c : Int),
      (consumeKafkaMessages nr b t c).err = none →
        (consumeKafkaMessages nr b t c).text ≠ "" ∧
          ((consumeKafkaMessages nr b t c).text = "Topic is empty or no new messages" ∨
            ∃ rest, (consumeKafkaMessages nr b t c).text = "1. " ++ rest) := by
    intro nr b t c herr
    have h := consumeLoop_text_shape (nr b t) c.toNat 0 0 [] herr
    refine ⟨?_, h⟩
    rcases h with h | ⟨rest, h⟩
    · unfold consumeKafkaMessages
      rw [h]
      decide
    · unfold consumeKafkaMessages
      rw [h]
      exact append_ne_empty_of_left _ _ (by decide)
  refine ⟨hshape newReader broker topic maxCount, ?_, ?_, ?_⟩
  · rintro ⟨rest, h⟩
    have h2 : String.mk ('T' :: "opic is empty or no new messages".data) ++ "" =
        String.mk ('1' :: ['.', ' ']) ++ rest := h
    exact append_ne_of_head 'T' '1' _ _ _ _ (by decide) h2
  · intro t
    unfold consumeHandler
    split
    · intro h
      have hf := congrArg CallToolResult.isError h
      simp [NewToolResultError, NewToolResultText] at hf
    · split
      · intro h
        have hf := congrArg CallToolResult.isError h
        simp [NewToolResultError, NewToolResultText] at hf
      · dsimp only
        split
        · intro h
          have hf := congrArg CallToolResult.isError h
          simp [NewToolResultError, NewToolResultText] at hf
        · rename_i herr
          rw [if_neg (hshape _ _ _ _ herr).1]
          intro h
          have ht := congrArg CallToolResult.text h
          simp only [NewToolResultText, String.append_assoc] at ht
          exact append_ne_of_head '📨' 'N' " Messages in topic '".data
            "o messages found in topic '".data _ _ (by decide) ht
  · intro b t err hb ht hfirst herr
    obtain ⟨htext, hnone⟩ :=
      first_read_context_error_any_count env.newReader b t (consumeCount env request) err herr hfirst
    unfold consumeHandler
    simp only [hb, ht, hnone, htext]
    rw [if_neg (by decide)]
    simp only [String.append_assoc]
    rfl

/-- C10 at an empty topic: the handler reports it under the header. -/
theorem consume_success_never_empty_witness :
    (consumeHandler (sampleEnv (readerOf [] (.fail .DeadlineExceeded)) [])
        (requestOf [("broker", .str "b"), ("topic", .str "t")])).result =
      NewToolResultText "📨 Messages in topic 't':\n\nTopic is empty or no new messages" :=
  (consume_success_never_empty (sampleEnv (readerOf [] (.fail .DeadlineExceeded)) [])
    (requestOf [("broker", .str "b"), ("topic", .str "t")])
    (fun _ _ => readerOf [] (.fail .DeadlineExceeded)) "b" "t" 10).2.2.2
    "b" "t" .DeadlineExceeded (by decide) (by decide) rfl (Or.inl rfl)

end KafkaMcp
